import Mathlib

/-!
# Admin controller: commission ledger and withdrawal approval

A shallow embedding of `src/controllers/admin.controller.js`.

Numbers.  A JavaScript number is NaN, one of the two infinities, or a finite value.
Finite values are carried as exact rationals: the arithmetic below follows the
ECMAScript rules for the special values (NaN propagation, division by zero,
infinity minus infinity) and is exact on finite operands, so the rounding of a
finite result to binary64 is not part of the model.  While the integers involved
stay below 2^53 the sums, differences, comparisons, `Math.round` and `Math.floor`
of the program are exact in binary64 as well; the idealised steps are the
quotient `amount / total`,
the three products `level * ratio` and the quotients of the referral counts.  The
two zeros are identified; the only divisors in the program are the total
commission, a sum of zero-defaulted terms, which is never the negative zero, and
the three positive constants.

State.  The documents live in three collections (users, withdrawal requests,
referral records); a handler is a function from the store, the clock and the
request to the new store and the HTTP response.  The schemas are declared in
`models/*.js`, outside the sources at hand; the documents below carry the fields
the controller reads and writes.
-/

namespace AdminController

/-! ## JavaScript values -/

/-- A JavaScript number. -/
inductive JSNum where
  | nan : JSNum
  | inf (neg : Bool) : JSNum
  | fin (q : ℚ) : JSNum
deriving DecidableEq

/-- A stored field: absent (reads as undefined) or a number. -/
inductive JSVal where
  | undefined : JSVal
  | num (x : JSNum) : JSVal
deriving DecidableEq

/-- ToNumber: undefined converts to NaN. -/
def toNumber : JSVal → JSNum
  | .undefined => .nan
  | .num x => x

/-- ToBoolean: undefined, NaN and zero are falsy. -/
def toBoolean : JSVal → Bool
  | .undefined => false
  | .num .nan => false
  | .num (.inf _) => true
  | .num (.fin q) => decide (q ≠ 0)

/-- The expression `v || 0` used as an operand of an addition. -/
def orZero (v : JSVal) : JSNum :=
  if toBoolean v then toNumber v else .fin 0

/-- Unary minus. -/
def jsNeg : JSNum → JSNum
  | .nan => .nan
  | .inf s => .inf (!s)
  | .fin q => .fin (-q)

/-- The operator `+` on numbers. -/
def jsAdd : JSNum → JSNum → JSNum
  | .nan, _ => .nan
  | _, .nan => .nan
  | .inf a, .inf b => if a = b then .inf a else .nan
  | .inf a, .fin _ => .inf a
  | .fin _, .inf b => .inf b
  | .fin p, .fin q => .fin (p + q)

/-- The operator `-` on numbers. -/
def jsSub (x y : JSNum) : JSNum := jsAdd x (jsNeg y)

/-- The operator `*` on numbers. -/
def jsMul : JSNum → JSNum → JSNum
  | .nan, _ => .nan
  | _, .nan => .nan
  | .inf a, .inf b => .inf (xor a b)
  | .inf a, .fin q => if q = 0 then .nan else .inf (xor a (decide (q < 0)))
  | .fin p, .inf b => if p = 0 then .nan else .inf (xor (decide (p < 0)) b)
  | .fin p, .fin q => .fin (p * q)

/-- The operator `/` on numbers; a zero divisor is the positive zero. -/
def jsDiv : JSNum → JSNum → JSNum
  | .nan, _ => .nan
  | _, .nan => .nan
  | .inf _, .inf _ => .nan
  | .inf a, .fin q => .inf (xor a (decide (q < 0)))
  | .fin _, .inf _ => .fin 0
  | .fin p, .fin q =>
    if q = 0 then (if p = 0 then .nan else .inf (decide (p < 0))) else .fin (p / q)

/-- The operator `<` on numbers; any comparison with NaN is false. -/
def jsLt : JSNum → JSNum → Bool
  | .nan, _ => false
  | _, .nan => false
  | .inf a, .inf b => a && !b
  | .inf a, .fin _ => a
  | .fin _, .inf b => !b
  | .fin p, .fin q => decide (p < q)

/-- The function `Math.round`: nearest integer, ties towards positive infinity. -/
def mathRound : JSNum → JSNum
  | .nan => .nan
  | .inf s => .inf s
  | .fin q => .fin (⌊q + 1 / 2⌋ : ℤ)

/-- The function `Math.max` of two arguments: NaN if either is NaN. -/
def mathMax : JSNum → JSNum → JSNum
  | .nan, _ => .nan
  | _, .nan => .nan
  | x, y => if jsLt x y then y else x

/-! ## Documents -/

/-- Modelled from the spec: the schema of `models/refer.model.js` is not among the sources.
The commission object has the three fields `level1`, `level2`, `level3`, each of which may
be absent. -/
structure Commission where
  level1 : JSVal
  level2 : JSVal
  level3 : JSVal
deriving DecidableEq

/-- Modelled from the spec: the schema of `models/refer.model.js` is not among the sources.
A referral document has the user it belongs to and its commission; `modifiedPaths` collects
the paths passed to `markModified`. -/
structure ReferralRecord where
  id : String
  user : String
  commission : Commission
  modifiedPaths : List String
deriving DecidableEq

/-- How a call ends: normally, or by throwing an `Error` with a message. -/
inductive Completion where
  | normal : Completion
  | throw (message : String) : Completion
deriving DecidableEq

/-! ## Constants -/

/-- Source lines 12-18. -/
def computeTotalCommission (referralRecord : ReferralRecord) : JSNum :=
  jsAdd
    (jsAdd (orZero referralRecord.commission.level1) (orZero referralRecord.commission.level2))
    (orZero referralRecord.commission.level3)

/-- The method `markModified` of a document. -/
def ReferralRecord.markModified (r : ReferralRecord) (path : String) : ReferralRecord :=
  { r with modifiedPaths := r.modifiedPaths ++ [path] }

/-- One of the three assignments of source lines 29-31, as the new field value. -/
def deductLevel (level : JSVal) (deductionRatio : JSNum) : JSVal :=
  .num (mathMax (.fin 0)
    (jsSub (toNumber level) (mathRound (jsMul (toNumber level) deductionRatio))))

/-- Source lines 20-35: the completion of the call and the record as the call leaves it. -/
def deductFromTotalCommission (referralRecord : ReferralRecord) (withdrawalAmount : JSNum) :
    Completion × ReferralRecord :=
  let total := computeTotalCommission referralRecord
  if jsLt total withdrawalAmount then
    (.throw "Insufficient commission balance", referralRecord)
  else
    let deductionRatio := jsDiv withdrawalAmount total
    let r1 := { referralRecord with commission :=
      { referralRecord.commission with
        level1 := deductLevel referralRecord.commission.level1 deductionRatio } }
    let r2 := { r1 with commission :=
      { r1.commission with level2 := deductLevel r1.commission.level2 deductionRatio } }
    let r3 := { r2 with commission :=
      { r2.commission with level3 := deductLevel r2.commission.level3 deductionRatio } }
    (.normal, r3.markModified "commission")

/-! ## The store and the handlers -/

/-- Modelled from the spec: the schema of `models/user.model.js` is not among the sources.
A user document, with the two flags the controller queries or sets. -/
structure User where
  id : String
  approved : Bool
  verified : Bool
deriving DecidableEq

/-- Modelled from the spec: the schema of `models/withdraw.model.js` is not among the sources.
A withdrawal request has the requesting user, the amount, the status and the two
timestamps; `processedAt` is unset until the handler writes it. -/
structure WithdrawalRequest where
  id : String
  user : String
  amount : JSNum
  status : String
  requestedAt : ℕ
  processedAt : Option ℕ
deriving DecidableEq

/-- The persisted collections, each in the order in which a query scans it. -/
structure Store where
  users : List User
  withdraws : List WithdrawalRequest
  referrals : List ReferralRecord
deriving DecidableEq

/-- A JSON response carrying a message. -/
structure Response where
  code : ℕ
  message : String
deriving DecidableEq

/-- A request field is falsy when it is absent or the empty string. -/
def present : Option String → Bool
  | none => false
  | some s => s != ""

/-- The query `Withdraw.findById`. -/
def Store.findWithdrawById (db : Store) (requestId : String) : Option WithdrawalRequest :=
  db.withdraws.find? (fun w => w.id == requestId)

/-- The query `Referral.findOne` by user. -/
def Store.findReferralByUser (db : Store) (user : String) : Option ReferralRecord :=
  db.referrals.find? (fun r => r.user == user)

/-- The method `save` of a withdrawal request: the stored document of that id is replaced. -/
def Store.saveWithdraw (db : Store) (w : WithdrawalRequest) : Store :=
  { db with withdraws := db.withdraws.map (fun d => if d.id == w.id then w else d) }

/-- The method `save` of a referral record: the stored document of that id is replaced and the
change tracking of the document starts afresh. -/
def Store.saveReferral (db : Store) (r : ReferralRecord) : Store :=
  { db with referrals :=
      db.referrals.map (fun d => if d.id == r.id then { r with modifiedPaths := [] } else d) }

/-- Source lines 154-193, `now` being the value of `new Date()`; the store operations succeed. -/
def approveWithdrawalRequest (db : Store) (now : ℕ) (requestId status : Option String) :
    Store × Response :=
  if !present requestId || !present status then
    (db, ⟨400, "Request ID and status are required"⟩)
  else
    let requestId := requestId.getD ""
    let status := status.getD ""
    match db.findWithdrawById requestId with
    | none => (db, ⟨404, "Withdrawal request not found"⟩)
    | some withdrawalRequest =>
      let withdrawalRequest :=
        { withdrawalRequest with status := status, processedAt := some now }
      let db := db.saveWithdraw withdrawalRequest
      if status == "Approved" then
        match db.findReferralByUser withdrawalRequest.user with
        | none => (db, ⟨404, "Referral record not found for this user"⟩)
        | some referralRecord =>
          match deductFromTotalCommission referralRecord withdrawalRequest.amount with
          | (.throw message, _) => (db, ⟨400, message⟩)
          | (.normal, referralRecord) =>
            (db.saveReferral referralRecord,
              ⟨200, "Withdrawal request " ++ status ++ " successfully"⟩)
      else
        (db, ⟨200, "Withdrawal request " ++ status ++ " successfully"⟩)

/-- A record whose three levels are present. -/
def mkRecord (a b c : ℚ) : ReferralRecord :=
  { id := "r1", user := "u1",
    commission := { level1 := .num (.fin a), level2 := .num (.fin b), level3 := .num (.fin c) },
    modifiedPaths := [] }

/-- A stored field from an optional finite value. -/
def fieldOf : Option ℚ → JSVal
  | none => .undefined
  | some q => .num (.fin q)

/-- A record whose levels are absent or finite numbers. -/
def mkSparseRecord (a b c : Option ℚ) : ReferralRecord :=
  { id := "r1", user := "u1",
    commission := { level1 := fieldOf a, level2 := fieldOf b, level3 := fieldOf c },
    modifiedPaths := [] }

/-- A pending request of user u1 for the given amount. -/
def mkRequest (amount : ℚ) : WithdrawalRequest :=
  { id := "w1", user := "u1", amount := .fin amount, status := "Pending",
    requestedAt := 0, processedAt := none }

/-- A store holding one user, one request and one referral record. -/
def mkStore (w : WithdrawalRequest) (r : ReferralRecord) : Store :=
  { users := [{ id := "u1", approved := true, verified := true }],
    withdraws := [w], referrals := [r] }

theorem orZero_fin (q : ℚ) : orZero (.num (.fin q)) = .fin q := by
  by_cases h : q = 0 <;> simp [orZero, toBoolean, toNumber, h]

theorem mathMax_zero_fin (x : ℚ) : mathMax (.fin 0) (.fin x) = .fin (max 0 x) := by
  by_cases h : 0 < x
  · simp [mathMax, jsLt, h, max_eq_right h.le]
  · simp [mathMax, jsLt, h, max_eq_left (not_lt.mp h)]

theorem deductLevel_fin (l ρ : ℚ) :
    deductLevel (.num (.fin l)) (.fin ρ) = .num (.fin (max 0 (l - (⌊l * ρ + 1 / 2⌋ : ℤ)))) := by
  simp [deductLevel, toNumber, jsMul, mathRound, jsSub, jsNeg, jsAdd, mathMax_zero_fin,
    sub_eq_add_neg]

/-- The call on a record with finite levels and non-zero total that covers the amount. -/
theorem deduct_fin (r : ReferralRecord) (l1 l2 l3 a : ℚ)
    (hc : r.commission = ⟨.num (.fin l1), .num (.fin l2), .num (.fin l3)⟩)
    (hT : l1 + l2 + l3 ≠ 0) (ha : a ≤ l1 + l2 + l3) :
    deductFromTotalCommission r (.fin a) =
      (.normal,
        { r with
          commission :=
            ⟨.num (.fin (max 0 (l1 - (⌊l1 * (a / (l1 + l2 + l3)) + 1 / 2⌋ : ℤ)))),
             .num (.fin (max 0 (l2 - (⌊l2 * (a / (l1 + l2 + l3)) + 1 / 2⌋ : ℤ)))),
             .num (.fin (max 0 (l3 - (⌊l3 * (a / (l1 + l2 + l3)) + 1 / 2⌋ : ℤ))))⟩
          modifiedPaths := r.modifiedPaths ++ ["commission"] }) := by
  have htot : computeTotalCommission r = .fin (l1 + l2 + l3) := by
    simp [computeTotalCommission, hc, orZero_fin, jsAdd]
  simp [deductFromTotalCommission, htot, jsLt, not_lt.mpr ha, jsDiv, hT, hc, deductLevel_fin,
    ReferralRecord.markModified]

/-- The rounded share of one level: between zero and the level, and within one half of the
exact share. -/
theorem share_bounds (l T : ℕ) (a : ℚ) (hT : 0 < T) (ha0 : 0 ≤ a)
    (ha : a ≤ (T : ℚ)) :
    (0 : ℚ) ≤ ((⌊(l : ℚ) * (a / (T : ℚ)) + 1 / 2⌋ : ℤ) : ℚ) ∧
    ((⌊(l : ℚ) * (a / (T : ℚ)) + 1 / 2⌋ : ℤ) : ℚ) ≤ (l : ℚ) ∧
    |((⌊(l : ℚ) * (a / (T : ℚ)) + 1 / 2⌋ : ℤ) : ℚ) - (l : ℚ) * (a / (T : ℚ))| ≤ 1 / 2 := by
  have hTq : (0 : ℚ) < (T : ℚ) := by exact_mod_cast hT
  have hl0 : (0 : ℚ) ≤ (l : ℚ) := Nat.cast_nonneg l
  have hρ0 : 0 ≤ a / (T : ℚ) := div_nonneg ha0 hTq.le
  have hρ1 : a / (T : ℚ) ≤ 1 := (div_le_one hTq).mpr ha
  have hx0 : 0 ≤ (l : ℚ) * (a / (T : ℚ)) := mul_nonneg hl0 hρ0
  have hx1 : (l : ℚ) * (a / (T : ℚ)) ≤ (l : ℚ) := mul_le_of_le_one_right hl0 hρ1
  have hfl := Int.floor_le ((l : ℚ) * (a / (T : ℚ)) + 1 / 2)
  have hlt := Int.lt_floor_add_one ((l : ℚ) * (a / (T : ℚ)) + 1 / 2)
  have h0 : (0 : ℤ) ≤ ⌊(l : ℚ) * (a / (T : ℚ)) + 1 / 2⌋ :=
    Int.floor_nonneg.mpr (by linarith)
  have h1 : ⌊(l : ℚ) * (a / (T : ℚ)) + 1 / 2⌋ ≤ (l : ℤ) := by
    have : ⌊(l : ℚ) * (a / (T : ℚ)) + 1 / 2⌋ < (l : ℤ) + 1 := by
      rw [Int.floor_lt]
      push_cast
      linarith
    omega
  refine ⟨by exact_mod_cast h0, by exact_mod_cast h1, ?_⟩
  rw [abs_le]
  constructor <;> linarith

/-! ## Lookups after a save -/

/-- C1: when the amount exceeds the total commission of the record, the deduction throws the
insufficient-balance error and the record, its three levels included, is as before. -/
theorem deduct_insufficient_balance (r : ReferralRecord) (amount : JSNum)
    (h : jsLt (computeTotalCommission r) amount = true) :
    deductFromTotalCommission r amount = (.throw "Insufficient commission balance", r) := by
  simp [deductFromTotalCommission, h]

/-- Witness of C1: the record with three zero levels and the amount 100. -/
theorem deduct_insufficient_balance_witness :
    jsLt (computeTotalCommission (mkRecord 0 0 0)) (.fin 100) = true ∧
    deductFromTotalCommission (mkRecord 0 0 0) (.fin 100)
      = (.throw "Insufficient commission balance", mkRecord 0 0 0) :=
  ⟨by simp [computeTotalCommission, mkRecord, orZero_fin, jsAdd, jsLt],
   deduct_insufficient_balance (mkRecord 0 0 0) (.fin 100)
     (by simp [computeTotalCommission, mkRecord, orZero_fin, jsAdd, jsLt])⟩

/-- C4: on natural-number levels with positive total and an amount between zero and the total,
each level after the deduction is at least zero and at most its value before. -/
theorem deduct_levels_bounded (r : ReferralRecord) (l1 l2 l3 : ℕ) (a : ℚ)
    (hc : r.commission = ⟨.num (.fin l1), .num (.fin l2), .num (.fin l3)⟩)
    (hT : 0 < l1 + l2 + l3) (ha0 : 0 ≤ a) (ha : a ≤ ((l1 + l2 + l3 : ℕ) : ℚ)) :
    ∃ n1 n2 n3 : ℚ,
      deductFromTotalCommission r (.fin a) =
        (.normal,
          { r with
            commission := ⟨.num (.fin n1), .num (.fin n2), .num (.fin n3)⟩
            modifiedPaths := r.modifiedPaths ++ ["commission"] }) ∧
      (0 ≤ n1 ∧ n1 ≤ (l1 : ℚ)) ∧ (0 ≤ n2 ∧ n2 ≤ (l2 : ℚ)) ∧ (0 ≤ n3 ∧ n3 ≤ (l3 : ℚ)) := by
  have hTq : (0 : ℚ) < ((l1 + l2 + l3 : ℕ) : ℚ) := by exact_mod_cast hT
  have hT' : (l1 : ℚ) + l2 + l3 ≠ 0 := by
    have := hTq
    push_cast at this
    exact this.ne'
  have ha' : a ≤ (l1 : ℚ) + l2 + l3 := by push_cast at ha; exact ha
  obtain ⟨h1l, -, -⟩ := share_bounds l1 (l1 + l2 + l3) a hT ha0 ha
  obtain ⟨h2l, -, -⟩ := share_bounds l2 (l1 + l2 + l3) a hT ha0 ha
  obtain ⟨h3l, -, -⟩ := share_bounds l3 (l1 + l2 + l3) a hT ha0 ha
  refine ⟨_, _, _, deduct_fin r l1 l2 l3 a hc hT' ha', ?_⟩
  push_cast at h1l h2l h3l
  have hl1 : (0 : ℚ) ≤ (l1 : ℚ) := Nat.cast_nonneg l1
  have hl2 : (0 : ℚ) ≤ (l2 : ℚ) := Nat.cast_nonneg l2
  have hl3 : (0 : ℚ) ≤ (l3 : ℚ) := Nat.cast_nonneg l3
  refine ⟨⟨le_max_left _ _, max_le hl1 (by linarith)⟩, ⟨le_max_left _ _, max_le hl2 (by linarith)⟩,
    ⟨le_max_left _ _, max_le hl3 (by linarith)⟩⟩

/-- Witness of C4: levels 3000, 300, 150 and amount 345. -/
theorem deduct_levels_bounded_witness :
    ∃ n1 n2 n3 : ℚ,
      deductFromTotalCommission (mkRecord 3000 300 150) (.fin 345) =
        (.normal,
          { mkRecord 3000 300 150 with
            commission := ⟨.num (.fin n1), .num (.fin n2), .num (.fin n3)⟩
            modifiedPaths := (mkRecord 3000 300 150).modifiedPaths ++ ["commission"] }) ∧
      (0 ≤ n1 ∧ n1 ≤ ((3000 : ℕ) : ℚ)) ∧ (0 ≤ n2 ∧ n2 ≤ ((300 : ℕ) : ℚ)) ∧
        (0 ≤ n3 ∧ n3 ≤ ((150 : ℕ) : ℚ)) :=
  deduct_levels_bounded (mkRecord 3000 300 150) 3000 300 150 345 (by simp [mkRecord])
    (by norm_num) (by norm_num) (by norm_num)

/-- C7 fails on the code: with level2 and level3 absent and level1 = 3000, the amount 300 is
deducted without error and leaves NaN in level2 and level3. -/
theorem deduct_absent_level_gives_nan :
    computeTotalCommission (mkSparseRecord (some 3000) none none) = .fin 3000 ∧
    deductFromTotalCommission (mkSparseRecord (some 3000) none none) (.fin 300) =
      (.normal,
        { mkSparseRecord (some 3000) none none with
          commission := ⟨.num (.fin 2700), .num .nan, .num .nan⟩
          modifiedPaths := ["commission"] }) := by
  constructor
  · norm_num [computeTotalCommission, mkSparseRecord, fieldOf, orZero, toBoolean, toNumber,
      jsAdd]
  · norm_num [deductFromTotalCommission, computeTotalCommission, mkSparseRecord, fieldOf,
      orZero, toBoolean, toNumber, jsAdd, jsLt, jsDiv, deductLevel, jsMul, mathRound, jsSub,
      jsNeg, mathMax, ReferralRecord.markModified]

/-- C10 fails on the code: with three zero levels and amount zero the call completes normally
and leaves NaN in all three levels. -/
theorem deduct_zero_of_zero_gives_nan :
    deductFromTotalCommission (mkRecord 0 0 0) (.fin 0) =
      (.normal,
        { mkRecord 0 0 0 with
          commission := ⟨.num .nan, .num .nan, .num .nan⟩
          modifiedPaths := ["commission"] }) := by
  simp [deductFromTotalCommission, computeTotalCommission, mkRecord, orZero, toBoolean,
    toNumber, jsAdd, jsLt, jsDiv, deductLevel, jsMul, mathRound, jsSub, jsNeg, mathMax,
    ReferralRecord.markModified]

/-- C6 fails on the code: an approval whose amount exceeds the total commission is answered
with 400, yet the request is already stored as Approved with processedAt set; only the
referral record is as before. -/
theorem approve_insufficient_persists_status :
    approveWithdrawalRequest (mkStore (mkRequest 100) (mkRecord 0 0 0)) 7
        (some "w1") (some "Approved")
      = (mkStore { mkRequest 100 with status := "Approved", processedAt := some 7 }
          (mkRecord 0 0 0), ⟨400, "Insufficient commission balance"⟩) := by
  simp [approveWithdrawalRequest, mkStore, mkRequest, mkRecord, Store.findWithdrawById,
    Store.saveWithdraw, Store.findReferralByUser, Store.saveReferral, present,
    deductFromTotalCommission, computeTotalCommission, orZero, toBoolean, toNumber, jsAdd, jsLt]

end AdminController
